import Mathlib

/-!
Verification development for the `runrex` pattern/document core
(`src/runrex/algo/pattern.py`).

Strings are modelled as `List Char` (`Str`).  Python's `re` compiled
patterns are modelled abstractly by the `Regex` structure: a `search`
function returning the first match (with its span and capture groups) and a
`findIter` function returning the list of all non-overlapping matches in
left-to-right order.  Concrete regexes used in witnesses are supplied as
executable alternation-of-literals searchers mirroring `re`'s behaviour on
the inputs involved.

Python `assert` failures (the one in `Pattern._compress_groups`) are
modelled with `Except Unit`: `Except.error ()` is a raised
`AssertionError`, `Except.ok v` a normal return of `v`.  Methods that only
mutate (appending to a `MatchCask`) are modelled by their result values;
cask contents are carried explicitly where a claim depends on them.
-/

/-- Strings as lists of characters. -/
abbrev Str := List Char

/-- Raised-exception model: `Except.error ()` is a Python `AssertionError`
propagating out of a call. -/
abbrev PyM (α : Type) := Except Unit α

/-- ASCII whitespace, as stripped by Python's `str.strip`/`lstrip`/`rstrip`
(the texts in this development are ASCII; Python additionally strips some
Unicode whitespace, which no claim exercises). -/
def isPySpace (c : Char) : Bool :=
  c == ' ' || c == '\t' || c == '\n' || c == '\r' || c == '\x0b' || c == '\x0c'

/-- Python `str.lstrip()`. -/
def pyLstrip (s : Str) : Str := s.dropWhile isPySpace

/-- Python `str.rstrip()`. -/
def pyRstrip (s : Str) : Str := (s.reverse.dropWhile isPySpace).reverse

/-- Python `str.strip()`. -/
def pyStrip (s : Str) : Str := pyRstrip (pyLstrip s)

/-- Python `str.upper()` (ASCII). -/
def pyUpper (s : Str) : Str := s.map Char.toUpper

/-- The head of `dropWhile p l` (if any) fails `p`. -/
theorem head_dropWhile_not (p : α → Bool) :
    ∀ (l : List α) (c : α), (l.dropWhile p).head? = some c → p c = false := by
  intro l
  induction l with
  | nil => intro c h; simp [List.dropWhile] at h
  | cons a as ih =>
    intro c h
    by_cases ha : p a
    · rw [List.dropWhile_cons_of_pos ha] at h
      exact ih c h
    · rw [List.dropWhile_cons_of_neg ha] at h
      simp at h
      rw [← h]
      exact Bool.not_eq_true _ ▸ (by simpa using ha)

/-- `dropWhile` is idempotent. -/
theorem dropWhile_idem (p : α → Bool) (l : List α) :
    (l.dropWhile p).dropWhile p = l.dropWhile p := by
  cases h : l.dropWhile p with
  | nil => simp
  | cons c cs =>
    have hc : p c = false := head_dropWhile_not p l c (by rw [h]; rfl)
    rw [List.dropWhile_cons_of_neg (by simp [hc])]

/-- `pyLstrip` is idempotent. -/
theorem pyLstrip_idem (s : Str) : pyLstrip (pyLstrip s) = pyLstrip s :=
  dropWhile_idem isPySpace s

/-- `pyRstrip` is idempotent. -/
theorem pyRstrip_idem (s : Str) : pyRstrip (pyRstrip s) = pyRstrip s := by
  unfold pyRstrip
  rw [List.reverse_reverse, dropWhile_idem]

/-- `pyRstrip` of a list is a prefix of that list. -/
theorem pyRstrip_prefix (s : Str) : (pyRstrip s).IsPrefix s := by
  unfold pyRstrip
  have h := List.dropWhile_suffix (l := s.reverse) (p := isPySpace)
  exact List.reverse_suffix.mp (by simpa using h)

/-- Stripping trailing whitespace preserves absence of leading whitespace:
`pyLstrip (pyRstrip (pyLstrip s)) = pyRstrip (pyLstrip s)`. -/
theorem pyLstrip_pyStrip (s : Str) : pyLstrip (pyStrip s) = pyStrip s := by
  unfold pyStrip
  cases h : pyRstrip (pyLstrip s) with
  | nil => simp [pyLstrip]
  | cons c cs =>
    have hpre : (pyRstrip (pyLstrip s)).IsPrefix (pyLstrip s) := pyRstrip_prefix _
    rw [h] at hpre
    obtain ⟨t, ht⟩ := hpre
    have hhead : (pyLstrip s).head? = some c := by
      rw [← ht]; rfl
    have hc : isPySpace c = false := head_dropWhile_not isPySpace s c hhead
    show List.dropWhile isPySpace (c :: cs) = c :: cs
    rw [List.dropWhile_cons_of_neg (by simp [hc])]

/-- `pyRstrip` of `pyStrip` is `pyStrip`. -/
theorem pyRstrip_pyStrip (s : Str) : pyRstrip (pyStrip s) = pyStrip s := by
  unfold pyStrip
  rw [pyRstrip_idem]

/-- `pyStrip` is idempotent. -/
theorem pyStrip_idem (s : Str) : pyStrip (pyStrip s) = pyStrip s := by
  show pyRstrip (pyLstrip (pyStrip s)) = pyStrip s
  rw [pyLstrip_pyStrip, pyRstrip_pyStrip]

theorem pyLstrip_length_le (s : Str) : (pyLstrip s).length ≤ s.length :=
  (List.dropWhile_suffix _).sublist.length_le

theorem pyRstrip_length_le (s : Str) : (pyRstrip s).length ≤ s.length := by
  unfold pyRstrip
  simpa using (List.dropWhile_suffix (l := s.reverse) (p := isPySpace)).sublist.length_le

/-- A Python value as returned by the polymorphic accessors of the source
(`Match.group` returns a string, a tuple, or `None`; `Section.has_patterns`
returns a bool or an int). -/
inductive PyVal where
  | none
  | vstr (s : Str)
  | vint (n : Int)
  | vbool (b : Bool)
  | vtuple (l : List PyVal)
deriving Repr

/-- The data of a raw `re` match object `m`: span, matched text
(`m.group(0)`), capture groups (`m.groups()`, `none` for a group that did
not participate) and the groups' spans (for `m.start(i)` / `m.end(i)`). -/
structure MatchData where
  mstart : Nat
  mend : Nat
  mtext : Str
  groups : List (Option Str)
  gspans : List (Option (Nat × Nat))
deriving DecidableEq, Repr

/-- The value of raw group `i`: the full match for `0`, else the captured
text of group `i` (None when it did not participate). -/
def MatchData.groupVal (md : MatchData) (i : Nat) : PyVal :=
  if i = 0 then PyVal.vstr md.mtext else
    match md.groups.getD (i - 1) Option.none with
    | some s => PyVal.vstr s
    | Option.none => PyVal.none

/-- `re` match `group(*index)`: no index gives the full match, index `0`
the full match, index `i ≥ 1` the `i`-th capture group (None if it did not
participate), several indices a tuple; an index beyond the pattern's
group count raises IndexError, modelled as `Except.error ()`. -/
def MatchData.rawGroup (md : MatchData) (index : List Nat) : PyM PyVal :=
  match index with
  | [] => Except.ok (PyVal.vstr md.mtext)
  | [i] =>
    if i = 0 ∨ i - 1 < md.groups.length then Except.ok (md.groupVal i)
    else Except.error ()
  | _ =>
    if index.all (fun i => i == 0 || i - 1 < md.groups.length) then
      Except.ok (PyVal.vtuple (index.map md.groupVal))
    else Except.error ()

/-- `re` match `start(i)` (`-1` for a group that did not participate). -/
def MatchData.rawStart (md : MatchData) (i : Nat) : Int :=
  if i = 0 then md.mstart else
    match md.gspans.getD (i - 1) Option.none with
    | some p => p.1
    | Option.none => -1

/-- `re` match `end(i)`. -/
def MatchData.rawEnd (md : MatchData) (i : Nat) : Int :=
  if i = 0 then md.mend else
    match md.gspans.getD (i - 1) Option.none with
    | some p => p.2
    | Option.none => -1

/-- The wrapper class `Match` of the source: a raw match plus the optional
compressed group tuple `_groups` (`Option.none` models Python `None`). -/
structure Match where
  md : MatchData
  mgroups : Option (List (Option Str))
deriving DecidableEq, Repr

/-- Python truthiness of `self._groups`: `None` and the empty tuple are
falsy. -/
def groupsTruthy : Option (List (Option Str)) → Bool
  | Option.none => false
  | some l => !l.isEmpty

/-- `Match.group(*index)` (source lines 12-22): when `_groups` is falsy, or
no index is given, or the single index `0` is given, delegate to the raw
match; otherwise the source builds a list `res` — appending the raw full
match for a zero index and `self._groups[idx - 1]` for a nonzero one,
which raises IndexError as soon as some `idx - 1` is outside the
compressed tuple (`Except.error ()`; the in-order loop raises at the
first bad index, which is result-equivalent to checking them all) — and,
having no `return` statement on that path, returns `None` when the loop
completes. -/
def Match.group (m : Match) (index : List Nat) : PyM PyVal :=
  if !(groupsTruthy m.mgroups) || index.isEmpty
      || (index.length == 1 && index.headD 1 == 0) then
    m.md.rawGroup index
  else
    if index.all (fun idx => idx == 0 || idx - 1 < (m.mgroups.getD []).length) then
      Except.ok PyVal.none
    else
      Except.error ()

/-- `Match.groups()`. -/
def Match.groupsFn (m : Match) : List (Option Str) :=
  match m.mgroups with
  | Option.none => m.md.groups
  | some g => if g.isEmpty then m.md.groups else g

/-- `Match.start(group)`: delegates to the raw match. -/
def Match.startAt (m : Match) (group : Nat) : Int := m.md.rawStart group

/-- `Match.end(group)`: delegates to the raw match. -/
def Match.endAt (m : Match) (group : Nat) : Int := m.md.rawEnd group

/-- Abstract model of a compiled `re` pattern: `search` returns the first
match in the text (as `re.Pattern.search`), `findIter` the list of all
non-overlapping matches in left-to-right order (as `re.Pattern.finditer`).
Concrete instances below implement these for the literal/alternation
regexes the witnesses use. -/
structure Regex where
  search : Str → Option MatchData
  findIter : Str → List MatchData

/-- The class `Pattern` (source lines 40-85).  The string-level
preprocessing of `__init__` (whitespace replacement, named-group
retention) happens before compilation and is not modelled, the compiled
regexes being abstract here; the `match_count` diagnostic counter is also
omitted (no claim concerns it).  What matters for the claims is that
`__init__` performs no check relating `capture_length` to the primary
regex's capture-group count: construction always succeeds. -/
structure Pattern where
  pattern : Regex
  negates : List Regex
  requires : List Regex
  requires_all : List Regex
  capture_length : Option Nat

/-- `Pattern.__init__` with already-compiled regexes: it just stores its
arguments (no divisibility or group-count validation anywhere in source
lines 42-85). -/
def Pattern.init (pattern : Regex) (negates requires requires_all : List Regex)
    (capture_length : Option Nat) : Pattern :=
  { pattern := pattern, negates := negates, requires := requires,
    requires_all := requires_all, capture_length := capture_length }

/-- `Pattern._confirm_match` (source lines 90-108): negation regexes first
(any hit rejects), then the "any-of" requirement list (nonempty and none
hit rejects), then the "all-of" list (any miss rejects); early `return
False` in the source loops is the first true branch here. -/
def Pattern.confirm_match (p : Pattern) (text : Str)
    (ignore_negation ignore_requires ignore_requires_all : Bool) : Bool :=
  if !ignore_negation && p.negates.any (fun ng => (ng.search text).isSome) then
    false
  else if !ignore_requires && !p.requires.isEmpty
      && !(p.requires.any (fun rq => (rq.search text).isSome)) then
    false
  else if !ignore_requires_all
      && p.requires_all.any (fun rq => (rq.search text).isNone) then
    false
  else
    true

/-- Consecutive chunks of size `k` (the `zip(*[iter(...)] * k)` idiom of
the source, which drops a final incomplete chunk); `fuel` only bounds the
recursion (any value at least the list's length gives the same result). -/
def chunksOfAux (k : Nat) : Nat → List α → List (List α)
  | 0, _ => []
  | _, [] => []
  | fuel + 1, a :: rest =>
    if k = 0 ∨ (a :: rest).length < k then [] else
      (a :: rest).take k :: chunksOfAux k fuel ((a :: rest).drop k)

/-- Consecutive chunks of size `k`, dropping a final incomplete chunk. -/
def chunksOf (k : Nat) (l : List α) : List (List α) := chunksOfAux k l.length l

/-- `Pattern._compress_groups` (source lines 139-149): with a truthy
`capture_length` the raw groups are chunked into `capture_length`-tuples
(the `assert` demands exact divisibility — failure raises, modelled as
`Except.error ()`) and the first chunk whose first element is non-null is
returned; with no (or zero, hence falsy) `capture_length` the result is
`None`. -/
def Pattern.compress_groups (p : Pattern) (m : MatchData) :
    PyM (Option (List (Option Str))) :=
  match p.capture_length with
  | some k =>
    if k = 0 then Except.ok Option.none
    else if m.groups.length % k = 0 then
      Except.ok ((chunksOf k m.groups).find? (fun x => (x.headD Option.none).isSome))
    else
      Except.error ()
  | Option.none => Except.ok Option.none

/-- `Pattern.matches` (source lines 124-137): search the primary regex,
reject via `_confirm_match`, and on success wrap the raw match with the
compressed groups (the compression can raise).  Python returns `False`
for "no match"; modelled as `Option.none`. -/
def Pattern.matches (p : Pattern) (text : Str)
    (ignore_negation ignore_requires ignore_requires_all : Bool) :
    PyM (Option Match) :=
  match p.pattern.search text with
  | some m =>
    if p.confirm_match text ignore_negation ignore_requires ignore_requires_all then
      match p.compress_groups m with
      | Except.ok g => Except.ok (some ⟨m, g⟩)
      | Except.error e => Except.error e
    else
      Except.ok Option.none
  | Option.none => Except.ok Option.none

/-- Pure boolean counterpart of `Pattern.matches` (true iff the primary
regex hits and the constraint set passes); used to state theorems about
the selection operators.  `Pattern.matches` returns `Except.ok (some _)`
or `Except.error ()` exactly when this is `true`. -/
def Pattern.matchesB (p : Pattern) (text : Str)
    (ignore_negation ignore_requires ignore_requires_all : Bool) : Bool :=
  (p.pattern.search text).isSome
    && p.confirm_match text ignore_negation ignore_requires ignore_requires_all

/-- The loop body chain of `Pattern.finditer` over a list of raw primary
matches. -/
def Pattern.finditerAux (p : Pattern) (text : Str)
    (ignore_negation ignore_requires ignore_requires_all : Bool) :
    List MatchData → PyM (List Match)
  | [] => Except.ok []
  | m :: rest =>
    if p.confirm_match text ignore_negation ignore_requires ignore_requires_all then
      match p.compress_groups m with
      | Except.ok g =>
        match p.finditerAux text ignore_negation ignore_requires ignore_requires_all rest with
        | Except.ok tail => Except.ok (⟨m, g⟩ :: tail)
        | Except.error e => Except.error e
      | Except.error e => Except.error e
    else
      p.finditerAux text ignore_negation ignore_requires ignore_requires_all rest

/-- `Pattern.finditer` (source lines 110-122): every non-overlapping
primary match, each filtered by `_confirm_match(text, ...)` — note the
filter is applied to the whole `text`, not to the candidate match. -/
def Pattern.finditer (p : Pattern) (text : Str)
    (ignore_negation ignore_requires ignore_requires_all : Bool) :
    PyM (List Match) :=
  p.finditerAux text ignore_negation ignore_requires ignore_requires_all
    (p.pattern.findIter text)

/-- The class `MatchCask` (source lines 168-194): an append-only list of
matches.  The Python attribute `matches` is a Lean keyword, hence the
field name `matches_` (same for `Sentence` and `Section` below). -/
structure MatchCask where
  matches_ : List Match
deriving DecidableEq, Repr

/-- `MatchCask.add`: append one match (mutation modelled as the updated
cask). -/
def MatchCask.add (mc : MatchCask) (m : Match) : MatchCask :=
  ⟨mc.matches_ ++ [m]⟩

/-- `MatchCask.add_all` (source lines 176-177): extend the cask's list.
This is the state after the mutation `self.matches += matches`. -/
def MatchCask.add_all (mc : MatchCask) (ms : List Match) : MatchCask :=
  ⟨mc.matches_ ++ ms⟩

/-- The VALUE of the Python call expression `mc.add_all(ms)`: the method
body has no `return` statement, so the call evaluates to `None`. -/
def MatchCask.add_all_value : Option MatchCask := Option.none

/-- `MatchCask.copy` (source lines 179-182): a new cask holding a shallow
copy of the list (so extending the copy leaves the original list
untouched). -/
def MatchCask.copy (mc : MatchCask) : MatchCask :=
  ⟨mc.matches_⟩

/-- The class `Sentence` (source lines 251-307): a text span with absolute
offsets.  Offsets are Python ints, modelled as `Int`.  The Python field
`end` is a Lean keyword, hence `end_`. -/
structure Sentence where
  text : Str
  matches_ : MatchCask
  start : Int
  end_ : Int
deriving DecidableEq, Repr

/-- A placeholder sentence for `List.getD` at indices the source
guarantees to be in range. -/
def defaultSentence : Sentence :=
  { text := [], matches_ := ⟨[]⟩, start := 0, end_ := 0 }

/-- `Sentence.strip` (source lines 260-266), as a state transformer:
trims whitespace and shrinks the offsets accordingly. -/
def Sentence.stripS (s : Sentence) : Sentence :=
  let ltext := pyLstrip s.text
  let start_incr : Int := (s.text.length : Int) - (ltext.length : Int)
  let rtext := pyRstrip ltext
  { s with
    text := rtext
    start := s.start + start_incr
    end_ := s.end_ - ((s.text.length : Int) - (rtext.length : Int) - start_incr) }

/-- `Sentence.__init__` (source lines 253-258): store text, cask (`mc or
MatchCask()` — a cask instance is always truthy, so only `None` is
replaced), `start`, `end` (`end if end else len(text)` — Python `0` and
`None` are both falsy), then strip. -/
def Sentence.init (text : Str) (mc : Option MatchCask) (start : Int)
    (end? : Option Int) : Sentence :=
  let e : Int :=
    match end? with
    | some v => if v ≠ 0 then v else (text.length : Int)
    | Option.none => (text.length : Int)
  Sentence.stripS
    { text := text, matches_ := mc.getD ⟨[]⟩, start := start, end_ := e }

/-- `Sentence.has_pattern` (source lines 268-272), result value only (the
source also appends the match, if any, to the sentence's cask; no claim
depends on that append). -/
def Sentence.has_pattern (snt : Sentence) (pat : Pattern)
    (ignore_negation : Bool) : PyM Bool :=
  match pat.matches snt.text ignore_negation false false with
  | Except.ok m => Except.ok m.isSome
  | Except.error e => Except.error e

/-- `Sentence.has_patterns` (source lines 274-280): "all" semantics fail
on the first non-matching pattern, "any" semantics succeed on the first
matching one; the final `return has_all` covers the exhausted loop. -/
def Sentence.has_patterns (snt : Sentence) :
    List Pattern → (has_all ignore_negation : Bool) → PyM Bool
  | [], has_all, _ => Except.ok has_all
  | pat :: rest, has_all, ign =>
    match snt.has_pattern pat ign with
    | Except.ok b =>
      if has_all && !b then Except.ok false
      else if !has_all && b then Except.ok true
      else snt.has_patterns rest has_all ign
    | Except.error e => Except.error e

/-- Pure boolean counterpart of `Sentence.has_patterns` (equal to it
whenever the latter returns normally). -/
def Sentence.hasPatternsB (snt : Sentence) :
    List Pattern → (has_all ignore_negation : Bool) → Bool
  | [], has_all, _ => has_all
  | pat :: rest, has_all, ign =>
    if has_all && !(pat.matchesB snt.text ign false false) then false
    else if !has_all && pat.matchesB snt.text ign false false then true
    else snt.hasPatternsB rest has_all ign

/-- `Sentence.get_pattern` (source lines 282-296): evaluate the pattern on
the sentence's own text; on a hit, either the requested group, or (with
`get_indices`) the triple of group text and the match span shifted by the
sentence's absolute `start`.  On no hit the Python function falls through,
returning `None`. -/
def Sentence.get_pattern (snt : Sentence) (pat : Pattern) (index : Nat)
    (get_indices : Bool) : PyM (Option PyVal) :=
  match pat.matches snt.text false false false with
  | Except.ok (some m) =>
    match m.group [index] with
    | Except.ok g =>
      if get_indices then
        Except.ok (some (PyVal.vtuple [g,
          PyVal.vint (m.startAt index + snt.start),
          PyVal.vint (m.endAt index + snt.start)]))
      else
        Except.ok (some g)
    | Except.error e => Except.error e
  | Except.ok Option.none => Except.ok Option.none
  | Except.error e => Except.error e

/-- The class `Sentences` (source lines 206-248). -/
structure Sentences where
  sentences : List Sentence
deriving DecidableEq, Repr

/-- `Sentences.__init__` (source lines 208-209): split the text with the
supplied splitter, DISCARD blank segments (`if s.strip()`), and build a
`Sentence` from each surviving `(text, start, end)` triple, sharing the
supplied cask. -/
def Sentences.init (text : Str) (mc : Option MatchCask)
    (ssplit : Str → List (Str × Nat × Nat)) : Sentences :=
  ⟨((ssplit text).filter (fun seg => !(pyStrip seg.1).isEmpty)).map
    (fun seg => Sentence.init seg.1 mc (seg.2.1 : Int) (some (seg.2.2 : Int)))⟩

/-- The class `Section` (source lines 310-372): a list of sentences plus
their newline-joined text view and a match cask. -/
structure Section where
  sentences : List Sentence
  text : Str
  matches_ : MatchCask
deriving DecidableEq, Repr

/-- `Section.__init__` (source lines 312-325): join the member sentences'
texts with a newline; `mc or MatchCask()` (a cask instance is always
truthy, so only `None` is replaced); with `add_matches` every member's
cask contents are appended. -/
def Section.init (sentences : List Sentence) (mc : Option MatchCask)
    (add_matches : Bool) : Section :=
  let base := mc.getD ⟨[]⟩
  { sentences := sentences
    text := List.intercalate ['\n'] (sentences.map Sentence.text)
    matches_ :=
      if add_matches then
        sentences.foldl (fun c snt => c.add_all snt.matches_.matches_) base
      else base }

/-- `Section.__add__` (source line 365-366): the second constructor
argument is the Python value of `self.matches.copy().add_all(...)`.
`add_all` mutates the copy (leaving both operands' casks untouched) but
returns `None`, so `Section.__init__` receives `mc=None` and allocates a
fresh empty cask. -/
def Section.add (a b : Section) : Section :=
  Section.init (a.sentences ++ b.sentences) MatchCask.add_all_value false

/-- `Section.has_pattern` (source lines 327-331), result value only (the
source also appends a hit to the section's cask). -/
def Section.has_pattern (sec : Section) (pat : Pattern)
    (ignore_negation : Bool) : PyM Bool :=
  match pat.matches sec.text ignore_negation false false with
  | Except.ok m => Except.ok m.isSome
  | Except.error e => Except.error e

/-- The loop of `Section.has_patterns` (source lines 348-360), with the
running count `cnt`. -/
def Section.has_patternsAux (sec : Section) (ignore_negation get_count : Bool) :
    List Pattern → Bool → Nat → PyM PyVal
  | [], has_all, cnt =>
    Except.ok (if get_count then PyVal.vint (cnt : Int) else PyVal.vbool has_all)
  | pat :: rest, has_all, cnt =>
    match sec.has_pattern pat ignore_negation with
    | Except.ok m =>
      if get_count then
        sec.has_patternsAux ignore_negation get_count rest has_all
          (cnt + (if m then 1 else 0))
      else if has_all && !m then Except.ok (PyVal.vbool false)
      else if !has_all && m then Except.ok (PyVal.vbool true)
      else sec.has_patternsAux ignore_negation get_count rest has_all cnt
    | Except.error e => Except.error e

/-- `Section.has_patterns` (source lines 337-360): `if get_count: has_all
= False` before the loop; count mode tallies matches without
short-circuiting and returns the count, otherwise boolean any/all
semantics apply. -/
def Section.has_patterns (sec : Section) (pats : List Pattern)
    (has_all ignore_negation get_count : Bool) : PyM PyVal :=
  Section.has_patternsAux sec ignore_negation get_count pats
    (if get_count then false else has_all) 0

/-- The plural container `Sections` (source lines 526-547): a dict from
uppercased names to sections, modelled as an association list in which
`add` replaces any previous binding of the key. -/
structure Sections where
  sections : List (Str × Section)
deriving DecidableEq, Repr

/-- The `Section` built by `Sections.add` (source lines 531-534): blank
split segments are discarded, the rest become sentences (no shared cask:
`Sentence(s, start=sidx, end=eidx)` leaves `mc=None`). -/
def Sections.buildSection (text : Str)
    (ssplit : Str → List (Str × Nat × Nat)) : Section :=
  Section.init
    (((ssplit text).filter (fun seg => !(pyStrip seg.1).isEmpty)).map
      (fun seg => Sentence.init seg.1 Option.none (seg.2.1 : Int) (some (seg.2.2 : Int))))
    Option.none false

/-- `Sections.add`: store the built section under the uppercased name
(dict assignment = replace any previous binding). -/
def Sections.add (S : Sections) (name text : Str)
    (ssplit : Str → List (Str × Nat × Nat)) : Sections :=
  ⟨(pyUpper name, Sections.buildSection text ssplit)
    :: S.sections.filter (fun kv => kv.1 ≠ pyUpper name)⟩

/-- The class `Document` (source lines 375-523), reduced to the state the
selection operators read: its sentence list and its top-level cask.
Construction (file loading, history-block removal, colon-newline
normalization, eager segmentation) is not needed by any claim and is not
modelled; the selection theorems quantify over every document state. -/
structure Document where
  sentences : Sentences
  matches_ : MatchCask
deriving DecidableEq, Repr

/-- The set `sents` built for a hit at index `i` by the loops of
`Document.select_sentences_with_patterns` /
`select_all_sentences_with_patterns` (source lines 475-480 and 492-497):
`sents.add(i)`, then for `j in range(neighboring_sentences)` add `i + j`
when `i + j < len(sentences)` and `i - j` when `i - j >= 0` (on Python
ints `i - j >= 0` is `j ≤ i`). -/
def neighborFinset (i n r : Nat) : Finset ℕ :=
  {i} ∪ (Finset.range r).biUnion (fun j =>
    (if i + j < n then {i + j} else ∅) ∪ (if j ≤ i then {i - j} else ∅))

/-- Python's `sorted(list(sents))` for a set of sentence indices: the
ascending enumeration of the set's elements.  Every index the selection
loops put into the set is below the sentence count `n` (the loops guard
`i + j < len(sentences)` and `i - j >= 0` with `i < n`), so enumerating
`range(n)` and keeping the members is exactly that sorted list. -/
def sortedIndices (S : Finset ℕ) (n : Nat) : List ℕ :=
  (List.range n).filter (fun k => decide (k ∈ S))

/-- The negation test of the selection loops: `if negation:` then
`sentence.has_patterns(*negation)` — an empty (or absent) negation list
never rejects. -/
def negCheck (snt : Sentence) (negation : List Pattern) : PyM Bool :=
  if !negation.isEmpty then snt.has_patterns negation false false
  else Except.ok false

/-- The loop of `Document.select_sentences_with_patterns` (source lines
467-482) over the enumerated sentence list: for a sentence satisfying the
patterns (and, when a negation list is given and nonempty, not satisfying
it) a `Section` of the sorted neighbor set is yielded, sharing the
document's cask. -/
def selectAux (all : List Sentence) (cask : MatchCask)
    (pats negation : List Pattern) (has_all : Bool) (r : Nat) :
    List (Nat × Sentence) → PyM (List Section)
  | [] => Except.ok []
  | (i, snt) :: rest =>
    match snt.has_patterns pats has_all false with
    | Except.error e => Except.error e
    | Except.ok hit =>
      if hit then
        match negCheck snt negation with
        | Except.error e => Except.error e
        | Except.ok neg =>
          if neg then selectAux all cask pats negation has_all r rest
          else
            match selectAux all cask pats negation has_all r rest with
            | Except.error e => Except.error e
            | Except.ok tail =>
              Except.ok (Section.init
                ((sortedIndices (neighborFinset i all.length r) all.length).map
                  (fun k => all.getD k defaultSentence))
                (some cask) false :: tail)
      else selectAux all cask pats negation has_all r rest

/-- `Document.select_sentences_with_patterns` (source lines 467-482). -/
def Document.select_sentences_with_patterns (doc : Document)
    (pats negation : List Pattern) (has_all : Bool)
    (neighboring_sentences : Nat) : PyM (List Section) :=
  selectAux doc.sentences.sentences doc.matches_ pats negation has_all
    neighboring_sentences doc.sentences.sentences.enum

/-- The accumulation loop of `select_all_sentences_with_patterns` (source
lines 486-497): the union over all qualifying sentences of their neighbor
sets. -/
def collectAux (pats negation : List Pattern) (has_all : Bool) (r n : Nat) :
    List (Nat × Sentence) → Finset ℕ → PyM (Finset ℕ)
  | [], acc => Except.ok acc
  | (i, snt) :: rest, acc =>
    match snt.has_patterns pats has_all false with
    | Except.error e => Except.error e
    | Except.ok hit =>
      if hit then
        match negCheck snt negation with
        | Except.error e => Except.error e
        | Except.ok neg =>
          if neg then collectAux pats negation has_all r n rest acc
          else collectAux pats negation has_all r n rest (acc ∪ neighborFinset i n r)
      else collectAux pats negation has_all r n rest acc

/-- The index set collected by `select_all_sentences_with_patterns` before
its final branching. -/
def Document.collect_selected (doc : Document)
    (pats negation : List Pattern) (has_all : Bool) (r : Nat) :
    PyM (Finset ℕ) :=
  collectAux pats negation has_all r doc.sentences.sentences.length
    doc.sentences.sentences.enum ∅

/-- `Document.select_all_sentences_with_patterns` (source lines 484-506):
sort the collected set; empty → `None`; singleton → one-sentence section;
`get_range` → the contiguous slice `sentences[first:last+1]`; otherwise
exactly the collected (possibly non-contiguous) sentences. -/
def Document.select_all_sentences_with_patterns (doc : Document)
    (pats negation : List Pattern) (has_all get_range : Bool) (r : Nat) :
    PyM (Option Section) :=
  match doc.collect_selected pats negation has_all r with
  | Except.error e => Except.error e
  | Except.ok s =>
    match sortedIndices s doc.sentences.sentences.length with
    | [] => Except.ok Option.none
    | [k] => Except.ok (some (Section.init
        [doc.sentences.sentences.getD k defaultSentence] (some doc.matches_) false))
    | k :: k2 :: ks =>
      if get_range then
        Except.ok (some (Section.init
          ((doc.sentences.sentences.drop k).take ((k2 :: ks).getLastD k + 1 - k))
          (some doc.matches_) false))
      else
        Except.ok (some (Section.init
          ((k :: k2 :: ks).map (fun j => doc.sentences.sentences.getD j defaultSentence))
          (some doc.matches_) false))

/-- The qualification test of both selection loops for one sentence, as a
pure boolean: the sentence satisfies the supplied patterns and, when a
nonempty negation list is supplied, does not satisfy it. -/
def qualB (pats negation : List Pattern) (has_all : Bool) (snt : Sentence) : Bool :=
  snt.hasPatternsB pats has_all false
    && !(!negation.isEmpty && snt.hasPatternsB negation false false)

/-- Case-insensitive character comparison (the default `re.IGNORECASE`
flag of `Pattern.__init__`). -/
def lowerEq (a b : Char) : Bool := a.toLower == b.toLower

/-- Case-insensitive prefix test. -/
def ciPrefix : Str → Str → Bool
  | [], _ => true
  | _ :: _, [] => false
  | a :: as, b :: bs => lowerEq a b && ciPrefix as bs

/-- Which alternative of a literal alternation matches at position `pos`
of `s` (first alternative in pattern order, as `re` resolves an
alternation). -/
def altAt (alts : List Str) (s : Str) (pos : Nat) : Option Str :=
  alts.find? (fun a => ciPrefix a (s.drop pos))

/-- Executable model of `re.Pattern.search` for a case-insensitive literal
alternation such as `(this|that)`: the leftmost position where some
alternative matches wins; the single capture group is the whole match. -/
def altSearch (alts : List Str) (s : Str) : Option MatchData :=
  (List.range (s.length + 1)).findSome? (fun pos =>
    (altAt alts s pos).map (fun a =>
      { mstart := pos
        mend := pos + a.length
        mtext := (s.drop pos).take a.length
        groups := [some ((s.drop pos).take a.length)]
        gspans := [some (pos, pos + a.length)] }))

/-- One step of `re.Pattern.finditer` for a literal alternation: find the
next match in the remaining text, shift it by `base` absolute offset,
continue after its end (advancing at least one character, as `re` does
past a zero-width match).  `fuel` bounds the recursion by the text
length. -/
def altFindIterAux (alts : List Str) : Str → Nat → Nat → List MatchData
  | _, _, 0 => []
  | s, base, fuel + 1 =>
    match altSearch alts s with
    | Option.none => []
    | some m =>
      let step := max m.mend (m.mstart + 1)
      { m with
        mstart := m.mstart + base
        mend := m.mend + base
        gspans := m.gspans.map (fun sp => sp.map (fun p => (p.1 + base, p.2 + base))) }
        :: altFindIterAux alts (s.drop step) (base + step) fuel

/-- Executable model of `re.Pattern.finditer` for a literal
alternation. -/
def altFindIter (alts : List Str) (s : Str) : List MatchData :=
  altFindIterAux alts s 0 (s.length + 1)

/-- A compiled case-insensitive literal-alternation regex with one capture
group, e.g. `(this|that)`. -/
def altRegex (alts : List Str) : Regex :=
  { search := altSearch alts, findIter := altFindIter alts }

/-- `default_ssplit` (source lines 197-203): the end positions of the
newline characters of the text. -/
def nlEnds (text : Str) : List Nat :=
  ((List.range text.length).filter (fun p => text.getD p ' ' == '\n')).map (· + 1)

/-- The segments `(text[start:e], start, e)` between consecutive newline
ends, with the final segment `(text[start:], start, len(text))`. -/
def segsOf (text : Str) : List Nat → Nat → List (Str × Nat × Nat)
  | [], start => [(text.drop start, start, text.length)]
  | e :: rest, start => ((text.take e).drop start, start, e) :: segsOf text rest e

/-- `default_ssplit` (source lines 197-203): split after every newline;
the trailing segment (possibly empty) is always yielded. -/
def default_ssplit (text : Str) : List (Str × Nat × Nat) :=
  segsOf text (nlEnds text) 0

/-- The test pattern `Pattern` compiled from the regex `(this|that)` (no negations or
requirements, no `capture_length`). -/
def thisThatPat : Pattern :=
  Pattern.init (altRegex ["this".data, "that".data]) [] [] [] Option.none

/-- The sentence text of the source's `test_pattern_matches_sentence`. -/
def tabText : Str := "\t I want this, or that.\n".data

/-- A literal pattern matching `one`. -/
def onePat : Pattern :=
  Pattern.init (altRegex ["one".data]) [] [] [] Option.none

/-- A literal pattern matching `those`. -/
def thosePat : Pattern :=
  Pattern.init (altRegex ["those".data]) [] [] [] Option.none

/-- Model of the compiled regex `(?:(a)|(b)|(c))`: three capture groups,
of which exactly the alternative that matched is non-null. -/
def threeAltGroups (m : MatchData) : MatchData :=
  { m with
    groups := [if m.mtext = "a".data then some m.mtext else Option.none,
               if m.mtext = "b".data then some m.mtext else Option.none,
               if m.mtext = "c".data then some m.mtext else Option.none]
    gspans := [if m.mtext = "a".data then some (m.mstart, m.mend) else Option.none,
               if m.mtext = "b".data then some (m.mstart, m.mend) else Option.none,
               if m.mtext = "c".data then some (m.mstart, m.mend) else Option.none] }

/-- The compiled regex `(?:(a)|(b)|(c))`. -/
def rx3 : Regex :=
  { search := fun s => (altSearch ["a".data, "b".data, "c".data] s).map threeAltGroups
    findIter := fun s => (altFindIter ["a".data, "b".data, "c".data] s).map threeAltGroups }

/-- `Pattern` from regex `(?:(a)|(b)|(c))` with `capture_length=2`: three raw capture
groups with a `capture_length` that does not divide them.  `__init__`
accepts this without complaint. -/
def pBad : Pattern := Pattern.init rx3 [] [] [] (some 2)

/-- `Pattern` from regex `(?:(a)|(b)|(c))` with `capture_length=1` (the shape the source's
own docstring gives for `capture_length = 1`). -/
def pW : Pattern := Pattern.init rx3 [] [] [] (some 1)

/-- The raw match of `rx3` on the text `b`. -/
def mdB : MatchData :=
  { mstart := 0, mend := 1, mtext := "b".data
    groups := [Option.none, some ("b".data), Option.none]
    gspans := [Option.none, some (0, 1), Option.none] }

/-- The raw match of `rx3` on the text `a`. -/
def mdA3 : MatchData :=
  { mstart := 0, mend := 1, mtext := "a".data
    groups := [some ("a".data), Option.none, Option.none]
    gspans := [some (0, 1), Option.none, Option.none] }

/-- The raw match of `rx3` on the text `c`. -/
def mdC3 : MatchData :=
  { mstart := 0, mend := 1, mtext := "c".data
    groups := [Option.none, Option.none, some ("c".data)]
    gspans := [Option.none, Option.none, some (0, 1)] }

/-- The match of `(this|that)` on the trimmed sentence text
`I want this, or that.` -/
def mThis : Match :=
  ⟨{ mstart := 7, mend := 11, mtext := "this".data
     groups := [some ("this".data)], gspans := [some (7, 11)] }, Option.none⟩

/-- A three-sentence document: only the middle sentence contains `one`. -/
def doc3 : Document :=
  { sentences := Sentences.init ("alpha\nbeta one\ngamma".data) (some ⟨[]⟩) default_ssplit
    matches_ := ⟨[]⟩ }

/-- The neighborhood the claim's wording prescribes for a hit at index
`i`: every in-bounds index within distance `context_radius` of `i`
(modelled from the claim's words, for comparison with the code's
`neighborFinset`). -/
def claimNeighborhood (i n r : ℕ) : List ℕ :=
  (List.range n).filter (fun k => decide (Nat.dist k i ≤ r))

/-- The presence of a normal `Pattern.matches` result equals the pure
predicate `Pattern.matchesB`. -/
theorem matches_ok_isSome (p : Pattern) (t : Str) (i j k : Bool)
    (o : Option Match) (h : p.matches t i j k = Except.ok o) :
    o.isSome = p.matchesB t i j k := by
  unfold Pattern.matches at h
  unfold Pattern.matchesB
  split at h
  case h_1 md hs =>
    rw [hs]
    by_cases hc : p.confirm_match t i j k
    · rw [if_pos hc] at h
      split at h
      · cases h
        simp [hc]
      · cases h
    · rw [if_neg hc] at h
      cases h
      simp [hc]
  case h_2 hs =>
    cases h
    rw [hs]
    simp

/-- `Sentence.has_pattern`'s normal result is `Pattern.matchesB` on the
sentence's text. -/
theorem sentence_has_pattern_ok (snt : Sentence) (pat : Pattern)
    (ign b : Bool) (h : snt.has_pattern pat ign = Except.ok b) :
    b = pat.matchesB snt.text ign false false := by
  unfold Sentence.has_pattern at h
  split at h
  case h_1 o hm =>
    cases h
    exact matches_ok_isSome pat snt.text ign false false o hm
  case h_2 => cases h

/-- `Sentence.has_patterns`'s normal result is `Sentence.hasPatternsB`. -/
theorem sentence_has_patterns_ok (snt : Sentence) :
    ∀ (pats : List Pattern) (ha ign b : Bool),
      snt.has_patterns pats ha ign = Except.ok b →
      b = snt.hasPatternsB pats ha ign := by
  intro pats
  induction pats with
  | nil =>
    intro ha ign b h
    cases h
    rfl
  | cons pat rest ih =>
    intro ha ign b h
    unfold Sentence.has_patterns at h
    unfold Sentence.hasPatternsB
    split at h
    case h_2 => cases h
    case h_1 m hm =>
      have hmb : m = pat.matchesB snt.text ign false false :=
        sentence_has_pattern_ok snt pat ign m hm
      subst hmb
      by_cases h1 : ha && !(pat.matchesB snt.text ign false false)
      · rw [if_pos h1] at h
        cases h
        rw [if_pos h1]
      · rw [if_neg h1] at h
        rw [if_neg h1]
        by_cases h2 : !ha && pat.matchesB snt.text ign false false
        · rw [if_pos h2] at h
          cases h
          rw [if_pos h2]
        · rw [if_neg h2] at h
          rw [if_neg h2]
          exact ih ha ign b h

/-- `Section.has_pattern`'s normal result is `Pattern.matchesB` on the
section's joined text. -/
theorem section_has_pattern_ok (sec : Section) (pat : Pattern)
    (ign b : Bool) (h : sec.has_pattern pat ign = Except.ok b) :
    b = pat.matchesB sec.text ign false false := by
  unfold Section.has_pattern at h
  split at h
  case h_1 o hm =>
    cases h
    exact matches_ok_isSome pat sec.text ign false false o hm
  case h_2 => cases h

/-- In count mode the `Section.has_patterns` loop adds the number of
matching patterns to the running count, never short-circuiting. -/
theorem section_has_patternsAux_count (sec : Section) (ign : Bool) :
    ∀ (pats : List Pattern) (ha : Bool) (cnt : Nat) (v : PyVal),
      sec.has_patternsAux ign true pats ha cnt = Except.ok v →
      v = PyVal.vint ((cnt : Int) +
        (pats.countP (fun p => p.matchesB sec.text ign false false) : Int)) := by
  intro pats
  induction pats with
  | nil =>
    intro ha cnt v h
    cases h
    simp
  | cons pat rest ih =>
    intro ha cnt v h
    unfold Section.has_patternsAux at h
    split at h
    case h_2 => cases h
    case h_1 m hm =>
      rw [if_pos rfl] at h
      have hmb : m = pat.matchesB sec.text ign false false :=
        section_has_pattern_ok sec pat ign m hm
      have hv := ih ha (cnt + (if m then 1 else 0)) v h
      rw [hv, List.countP_cons, hmb]
      cases hpm : pat.matchesB sec.text ign false false <;> simp
      omega

/-- A match recorded in the left section's cask. -/
def mA : Match := ⟨⟨0, 1, "a".data, [], []⟩, Option.none⟩

/-- A match recorded in the right section's cask. -/
def mB : Match := ⟨⟨0, 1, "b".data, [], []⟩, Option.none⟩

/-- A left operand for `Section.__add__` whose cask holds one match. -/
def secA : Section :=
  Section.init [Sentence.init ("this one".data) Option.none 0 Option.none]
    (some ⟨[mA]⟩) false

/-- A right operand for `Section.__add__` whose cask holds one match. -/
def secB : Section :=
  Section.init [Sentence.init ("that two".data) Option.none 0 Option.none]
    (some ⟨[mB]⟩) false

/-- C1: `Section + Section` concatenates the sentence lists as claimed and
mutates neither operand's cask, but the claimed "copy of A's cask extended
with B's matches" is NOT what the result holds: `MatchCask.add_all` has no
`return` statement, so `Section.__add__` hands `None` to `Section.__init__`
and the result gets a fresh EMPTY cask.  Evaluated here on two sections
whose casks hold one match each: the copy-then-extend value the claim
describes would be `[mA, mB]`, the code's result cask is empty. -/
theorem c1_add_drops_matches :
    (Section.add secA secB).sentences = secA.sentences ++ secB.sentences
    ∧ (Section.add secA secB).matches_ = MatchCask.mk []
    ∧ (secA.matches_.copy.add_all secB.matches_.matches_).matches_ = [mA, mB]
    ∧ (Section.add secA secB).matches_.matches_ ≠
        (secA.matches_.copy.add_all secB.matches_.matches_).matches_
    ∧ secA.matches_.matches_ = [mA]
    ∧ secB.matches_.matches_ = [mB] := by
  refine ⟨rfl, rfl, rfl, by decide, rfl, rfl⟩

/-- C7: `Section.has_patterns` in count mode (`get_count=True`) returns,
whenever it returns normally, exactly the number of supplied patterns that
match the section's joined text — independently of the `has_all` flag the
caller passed (the source forces `has_all = False` first), and without
short-circuiting. -/
theorem c7_count_mode (sec : Section) (pats : List Pattern)
    (has_all ignore_negation : Bool) (v : PyVal)
    (h : sec.has_patterns pats has_all ignore_negation true = Except.ok v) :
    v = PyVal.vint ((pats.countP
      (fun p => p.matchesB sec.text ignore_negation false false) : Int)) := by
  have hv := section_has_patternsAux_count sec ignore_negation pats false 0 v h
  simpa using hv

/-- A one-sentence section matched by two of three test patterns. -/
def secW : Section :=
  Section.init
    [Sentence.init ("I want this and those".data) Option.none 0 Option.none]
    Option.none false

/-- Witness for C7: on a concrete section with patterns `(this|that)`,
`one`, `those` (two of which match) and `has_all=True`, count mode
returns exactly 2. -/
theorem c7_witness :
    secW.has_patterns [thisThatPat, onePat, thosePat] true false true
      = Except.ok (PyVal.vint 2)
    ∧ PyVal.vint 2 = PyVal.vint (([thisThatPat, onePat, thosePat].countP
        (fun p => p.matchesB secW.text false false false) : Int)) :=
  ⟨rfl, c7_count_mode secW [thisThatPat, onePat, thosePat] true false
    (PyVal.vint 2) rfl⟩

/-- C9 (amended): for a `Match` carrying a (truthy) compressed group
tuple, `group()` with no argument and `group(0)` return the full raw
match text; `group` with any other argument list returns `None` when
every nonzero index lies within the compressed tuple (the source builds a
result list but never returns it), and raises IndexError (the
`self._groups[idx - 1]` subscript) when some nonzero index is out of the
tuple's range. -/
theorem c9_group_accessor (m : Match) (h : groupsTruthy m.mgroups = true) :
    (∀ index : List Nat, index ≠ [] → index ≠ [0] →
      (∀ idx ∈ index, idx = 0 ∨ idx - 1 < (m.mgroups.getD []).length) →
      m.group index = Except.ok PyVal.none)
    ∧ (∀ index : List Nat, index ≠ [] → index ≠ [0] →
      (∃ idx ∈ index, idx ≠ 0 ∧ (m.mgroups.getD []).length ≤ idx - 1) →
      m.group index = Except.error ())
    ∧ m.group [] = Except.ok (PyVal.vstr m.md.mtext)
    ∧ m.group [0] = Except.ok (PyVal.vstr m.md.mtext) := by
  have hcond : ∀ index : List Nat, index ≠ [] → index ≠ [0] →
      (!(groupsTruthy m.mgroups) || index.isEmpty
        || (index.length == 1 && index.headD 1 == 0)) = false := by
    intro index hne hne0
    have hie : index.isEmpty = false := by
      cases index with
      | nil => exact absurd rfl hne
      | cons a as => rfl
    have hlen : (index.length == 1 && index.headD 1 == 0) = false := by
      cases index with
      | nil => exact absurd rfl hne
      | cons a as =>
        cases as with
        | nil =>
          have ha : a ≠ 0 := fun hh => hne0 (by rw [hh])
          simp [ha]
        | cons b bs => simp
    rw [h, hie, hlen]
    rfl
  refine ⟨?_, ?_, ?_, ?_⟩
  · intro index hne hne0 hin
    unfold Match.group
    rw [hcond index hne hne0]
    rw [if_neg (by simp)]
    rw [if_pos ?_]
    rw [List.all_eq_true]
    intro idx hidx
    rcases hin idx hidx with h0 | hlt
    · simp [h0]
    · simp [hlt]
  · intro index hne hne0 hout
    unfold Match.group
    rw [hcond index hne hne0]
    rw [if_neg (by simp)]
    rw [if_neg ?_]
    obtain ⟨idx, hidx, hnz, hge⟩ := hout
    intro hall
    rw [List.all_eq_true] at hall
    have := hall idx hidx
    simp only [Bool.or_eq_true, beq_iff_eq, decide_eq_true_eq] at this
    rcases this with h0 | hlt
    · exact hnz h0
    · omega
  · unfold Match.group
    simp [MatchData.rawGroup]
  · unfold Match.group
    simp [MatchData.rawGroup, MatchData.groupVal]

/-- A match with a compressed group tuple of length 1. -/
def mW : Match :=
  ⟨⟨0, 1, "y".data, [some ("x".data)], [some (0, 1)]⟩, some [some ("x".data)]⟩

/-- Counterexample to C9 as stated: on a compressed match whose tuple has
length 1, `group(2)` does not return `None` — the subscript
`self._groups[1]` raises IndexError. -/
theorem c9_counterexample :
    groupsTruthy mW.mgroups = true
    ∧ ([2] : List Nat) ≠ []
    ∧ ([2] : List Nat) ≠ [0]
    ∧ mW.group [2] = Except.error ()
    ∧ mW.group [2] ≠ Except.ok PyVal.none := by
  refine ⟨rfl, by decide, by decide, rfl, ?_⟩
  intro hx
  rw [show mW.group [2] = Except.error () from rfl] at hx
  exact Except.noConfusion hx

/-- Witness for C9 (amended): on the concrete compressed match,
`group(1)` (in range) is `None`, `group(2)` (out of range) raises, and
`group()`/`group(0)` are the raw match text. -/
theorem c9_witness :
    mW.group [1] = Except.ok PyVal.none
    ∧ mW.group [2] = Except.error ()
    ∧ mW.group [] = Except.ok (PyVal.vstr ("y".data))
    ∧ mW.group [0] = Except.ok (PyVal.vstr ("y".data)) := by
  have h := c9_group_accessor mW rfl
  exact ⟨h.1 [1] (by decide) (by decide) (by decide),
    h.2.1 [2] (by decide) (by decide) ⟨2, by decide, by decide, by decide⟩,
    h.2.2.1, h.2.2.2⟩

/-- The claim's four no-match conditions for `Pattern.matches`, in the
claim's own words: no primary match, a non-ignored negation fires, any-of
requirements exist, are not ignored and none matches, or a non-ignored
all-of requirement fails. -/
def matchesNoneSpec (p : Pattern) (t : Str) (ign ir ira : Bool) : Prop :=
  p.pattern.search t = Option.none
  ∨ (ign = false ∧ ∃ ng ∈ p.negates, (ng.search t).isSome)
  ∨ (ir = false ∧ p.requires ≠ [] ∧ ∀ rq ∈ p.requires, rq.search t = Option.none)
  ∨ (ira = false ∧ ∃ ra ∈ p.requires_all, ra.search t = Option.none)

/-- `Pattern._confirm_match` rejects exactly when one of the three
constraint conditions of the claim holds. -/
theorem confirm_match_eq_false_iff (p : Pattern) (t : Str) (i j k : Bool) :
    p.confirm_match t i j k = false ↔
      ((i = false ∧ ∃ ng ∈ p.negates, (ng.search t).isSome)
       ∨ (j = false ∧ p.requires ≠ [] ∧ ∀ rq ∈ p.requires, rq.search t = Option.none)
       ∨ (k = false ∧ ∃ ra ∈ p.requires_all, ra.search t = Option.none)) := by
  unfold Pattern.confirm_match
  by_cases h1 : !i && p.negates.any (fun ng => (ng.search t).isSome)
  · rw [if_pos h1]
    simp only [Bool.and_eq_true, Bool.not_eq_true', List.any_eq_true] at h1
    exact iff_of_true rfl (Or.inl ⟨h1.1, h1.2⟩)
  · rw [if_neg h1]
    by_cases h2 : !j && !p.requires.isEmpty
        && !(p.requires.any (fun rq => (rq.search t).isSome))
    · rw [if_pos h2]
      refine iff_of_true rfl (Or.inr (Or.inl ?_))
      simp only [Bool.and_eq_true, Bool.not_eq_true'] at h2
      obtain ⟨⟨hj, hne⟩, hnone⟩ := h2
      refine ⟨hj, ?_, ?_⟩
      · intro hnil
        rw [hnil] at hne
        simp at hne
      · intro rq hrq
        have hf : (rq.search t).isSome = false := by
          have hx := List.any_eq_false.mp hnone rq hrq
          simpa using hx
        exact Option.not_isSome_iff_eq_none.mp (by simp [hf])
    · rw [if_neg h2]
      by_cases h3 : !k && p.requires_all.any (fun rq => (rq.search t).isNone)
      · rw [if_pos h3]
        refine iff_of_true rfl (Or.inr (Or.inr ?_))
        simp only [Bool.and_eq_true, Bool.not_eq_true', List.any_eq_true] at h3
        obtain ⟨hk, ra, hra, hnone⟩ := h3
        exact ⟨hk, ra, hra, Option.isNone_iff_eq_none.mp hnone⟩
      · rw [if_neg h3]
        refine iff_of_false (by simp) ?_
        intro hcond
        rcases hcond with ⟨hi, ng, hng, hsome⟩ | ⟨hj, hne, hall⟩ | ⟨hk, ra, hra, hnone⟩
        · exact h1 (by
            simp only [Bool.and_eq_true, Bool.not_eq_true', List.any_eq_true]
            exact ⟨hi, ng, hng, hsome⟩)
        · apply h2
          have hie : p.requires.isEmpty = false := by
            cases hreq : p.requires with
            | nil => exact absurd hreq hne
            | cons a as => rfl
          have hany : p.requires.any (fun rq => (rq.search t).isSome) = false :=
            List.any_eq_false.mpr (fun rq hrq => by simp [hall rq hrq])
          simp [hj, hie, hany]
        · exact h3 (by
            simp only [Bool.and_eq_true, Bool.not_eq_true', List.any_eq_true]
            exact ⟨hk, ra, hra, by simp [hnone]⟩)

/-- C3 (amended): `Pattern.matches` returns no match exactly when the
primary regex has no match, a non-ignored negation fires, non-ignored
any-of requirements exist and none matches, or a non-ignored all-of
requirement fails (the order negation → any-of → all-of with
short-circuiting is the structure of `confirm_match`); in every other case
a `Match` wrapping the primary match is returned PROVIDED the group
compression does not hit its assertion (the amendment: with a
`capture_length` that does not divide the raw group count the success path
raises instead of returning a Match). -/
theorem c3_matches_characterization (p : Pattern) (t : Str) (ign ir ira : Bool) :
    (p.matches t ign ir ira = Except.ok Option.none ↔ matchesNoneSpec p t ign ir ira)
    ∧ (∀ (md : MatchData) (g : Option (List (Option Str))),
        p.pattern.search t = some md →
        p.compress_groups md = Except.ok g →
        ¬ matchesNoneSpec p t ign ir ira →
        p.matches t ign ir ira = Except.ok (some ⟨md, g⟩)) := by
  constructor
  · unfold Pattern.matches
    split
    case h_1 md hs =>
      by_cases hc : p.confirm_match t ign ir ira = true
      · rw [if_pos hc]
        refine iff_of_false ?_ ?_
        · intro h
          split at h
          · cases h
          · cases h
        · intro hspec
          unfold matchesNoneSpec at hspec
          rcases hspec with h | h3
          · rw [hs] at h
            cases h
          · have hcf : p.confirm_match t ign ir ira = false :=
              (confirm_match_eq_false_iff p t ign ir ira).mpr h3
            rw [hcf] at hc
            cases hc
      · have hcf : p.confirm_match t ign ir ira = false := by
          cases hcb : p.confirm_match t ign ir ira
          · rfl
          · exact absurd hcb hc
        rw [if_neg hc]
        exact iff_of_true rfl
          (Or.inr ((confirm_match_eq_false_iff p t ign ir ira).mp hcf))
    case h_2 hs =>
      exact iff_of_true rfl (Or.inl hs)
  · intro md g hsearch hcomp hnspec
    have hc : p.confirm_match t ign ir ira = true := by
      cases hcb : p.confirm_match t ign ir ira
      · exact absurd
          (Or.inr ((confirm_match_eq_false_iff p t ign ir ira).mp hcb)) hnspec
      · rfl
    unfold Pattern.matches
    rw [hsearch]
    show (if p.confirm_match t ign ir ira = true then
            match p.compress_groups md with
            | Except.ok g2 => Except.ok (some (Match.mk md g2))
            | Except.error e => Except.error e
          else Except.ok Option.none) = Except.ok (some (Match.mk md g))
    rw [if_pos hc, hcomp]

/-- Counterexample to C3 as stated: a `Pattern` from regex
`(?:(a)|(b)|(c))` with `capture_length=2`, on text `a` — the primary
regex matches and no
negation/requirement condition holds, yet no `Match` is returned: the call
raises the compression `AssertionError`. -/
theorem c3_counterexample :
    pBad.matches ("a".data) false false false = Except.error ()
    ∧ ¬ matchesNoneSpec pBad ("a".data) false false false := by
  constructor
  · rfl
  · intro h
    rcases h with h | ⟨_, ng, hng, _⟩ | ⟨_, hne, _⟩ | ⟨_, ra, hra, _⟩
    · exact absurd h (by decide)
    · exact List.not_mem_nil ng hng
    · exact hne rfl
    · exact List.not_mem_nil ra hra

/-- The trimmed sentence text `I want this, or that.` -/
def tW : Str := "I want this, or that.".data

/-- Witness for C3: on `(this|that)` against `I want this, or that.` the
success branch of the characterization yields the match `this` at
span (7, 11). -/
theorem c3_witness :
    thisThatPat.matches tW false false false = Except.ok (some mThis) := by
  have hnspec : ¬ matchesNoneSpec thisThatPat tW false false false := by
    intro h
    rcases h with h | ⟨_, ng, hng, _⟩ | ⟨_, hne, _⟩ | ⟨_, ra, hra, _⟩
    · exact absurd h (by decide)
    · exact List.not_mem_nil ng hng
    · exact hne rfl
    · exact List.not_mem_nil ra hra
  exact (c3_matches_characterization thisThatPat tW false false false).2
    mThis.md Option.none rfl rfl hnspec

/-- Concatenating the `k`-chunks of a list of length divisible by `k`
recovers the list. -/
theorem chunksOfAux_flatten (k : Nat) (hk : k ≠ 0) :
    ∀ (fuel : Nat) (l : List α), l.length ≤ fuel → l.length % k = 0 →
      (chunksOfAux k fuel l).flatten = l := by
  intro fuel
  induction fuel with
  | zero =>
    intro l hl _
    cases l with
    | nil => simp [chunksOfAux]
    | cons a rest => simp at hl
  | succ n ih =>
    intro l hl hmod
    cases l with
    | nil => simp [chunksOfAux]
    | cons a rest =>
      have hlen : k ≤ (a :: rest).length := by
        by_contra hlt
        push_neg at hlt
        have hmlt : (a :: rest).length % k = (a :: rest).length :=
          Nat.mod_eq_of_lt hlt
        rw [hmod] at hmlt
        simp at hmlt
      rw [chunksOfAux]
      rw [if_neg (by push_neg; exact ⟨hk, Nat.not_lt.mp (by omega)⟩)]
      have hdvd : k ∣ (a :: rest).length := Nat.dvd_of_mod_eq_zero hmod
      have hdropmod : ((a :: rest).drop k).length % k = 0 := by
        rw [List.length_drop]
        exact Nat.mod_eq_zero_of_dvd (Nat.dvd_sub' hdvd dvd_rfl)
      have hih : (chunksOfAux k n ((a :: rest).drop k)).flatten = (a :: rest).drop k := by
        refine ih ((a :: rest).drop k) ?_ hdropmod
        rw [List.length_drop]
        omega
      rw [List.flatten_cons, hih]
      exact List.take_append_drop k (a :: rest)

/-- `chunksOf` produces the consecutive `k`-chunks: flattening them
recovers the original list (under divisibility). -/
theorem chunksOf_flatten (k : Nat) (hk : k ≠ 0) (l : List α)
    (hmod : l.length % k = 0) : (chunksOf k l).flatten = l :=
  chunksOfAux_flatten k hk l.length l le_rfl hmod

/-- Every chunk produced by `chunksOfAux k` has length exactly `k`. -/
theorem chunksOfAux_length (k : Nat) :
    ∀ (fuel : Nat) (l : List α),
      ∀ c ∈ chunksOfAux k fuel l, c.length = k := by
  intro fuel
  induction fuel with
  | zero =>
    intro l c hc
    simp [chunksOfAux] at hc
  | succ n ih =>
    intro l c hc
    cases l with
    | nil => simp [chunksOfAux] at hc
    | cons a rest =>
      rw [chunksOfAux] at hc
      by_cases hcond : k = 0 ∨ (a :: rest).length < k
      · rw [if_pos hcond] at hc
        simp at hc
      · rw [if_neg hcond] at hc
        push_neg at hcond
        cases hc with
        | head =>
          rw [List.length_take]
          omega
        | tail _ htail => exact ih ((a :: rest).drop k) c htail

/-- C4 (amended): with `capture_length = k` (nonzero) dividing the raw
capture-group count, `_compress_groups` partitions the raw groups into
consecutive `k`-tuples and returns the first tuple whose first element is
non-null — the alternative that actually matched.  (The divisibility
violation is NOT a construction-time error: it raises an assertion at
match time, see the counterexample.) -/
theorem c4_group_compression (p : Pattern) (m : MatchData) (k : Nat)
    (hk : p.capture_length = some k) (h0 : k ≠ 0)
    (hdvd : m.groups.length % k = 0) :
    ∃ parts : List (List (Option Str)),
      parts.flatten = m.groups
      ∧ (∀ c ∈ parts, c.length = k)
      ∧ p.compress_groups m =
          Except.ok (parts.find? (fun c => (c.headD Option.none).isSome)) := by
  refine ⟨chunksOf k m.groups, chunksOf_flatten k h0 m.groups hdvd,
    chunksOfAux_length k m.groups.length m.groups, ?_⟩
  unfold Pattern.compress_groups
  rw [hk]
  show (if k = 0 then Except.ok Option.none
        else if m.groups.length % k = 0 then
          Except.ok ((chunksOf k m.groups).find? (fun x => (x.headD Option.none).isSome))
        else Except.error ()) =
    Except.ok ((chunksOf k m.groups).find? (fun c => (c.headD Option.none).isSome))
  rw [if_neg h0, if_pos hdvd]

/-- Counterexample to C4's "construction-time error" clause:
`Pattern` from regex `(?:(a)|(b)|(c))` with `capture_length=2` (three raw groups, not a
multiple of 2) is CONSTRUCTED without any error — the field is simply
stored — and the failure instead surfaces as a raised assertion when a
match is compressed at match time. -/
theorem c4_counterexample :
    (Pattern.init rx3 [] [] [] (some 2)).capture_length = some 2
    ∧ pBad.matches ("a".data) false false false = Except.error () :=
  ⟨rfl, rfl⟩

/-- Witness for C4: `capture_length = 1` over the 3-group alternation
`(?:(a)|(b)|(c))`; for each of the three alternatives the compression
returns exactly the 1-tuple of the alternative that matched. -/
theorem c4_witness :
    (∃ parts : List (List (Option Str)),
      parts.flatten = mdB.groups
      ∧ (∀ c ∈ parts, c.length = 1)
      ∧ pW.compress_groups mdB =
          Except.ok (parts.find? (fun c => (c.headD Option.none).isSome)))
    ∧ pW.compress_groups mdA3 = Except.ok (some [some ("a".data)])
    ∧ pW.compress_groups mdB = Except.ok (some [some ("b".data)])
    ∧ pW.compress_groups mdC3 = Except.ok (some [some ("c".data)]) :=
  ⟨c4_group_compression pW mdB 1 rfl (by decide) (by decide), rfl, rfl, rfl⟩

/-- When the text-level constraint check fails, the `finditer` loop
filters out every candidate. -/
theorem finditerAux_confirm_false (p : Pattern) (t : Str) (i j k : Bool)
    (hc : p.confirm_match t i j k = false) :
    ∀ l : List MatchData, p.finditerAux t i j k l = Except.ok [] := by
  intro l
  induction l with
  | nil => rfl
  | cons m rest ih =>
    unfold Pattern.finditerAux
    rw [hc]
    simpa using ih

/-- When the text-level constraint check passes, a normal `finditer`
result wraps exactly the raw primary matches, in order. -/
theorem finditerAux_confirm_true (p : Pattern) (t : Str) (i j k : Bool)
    (hc : p.confirm_match t i j k = true) :
    ∀ (l : List MatchData) (ms : List Match),
      p.finditerAux t i j k l = Except.ok ms → ms.map Match.md = l := by
  intro l
  induction l with
  | nil =>
    intro ms h
    cases h
    rfl
  | cons m rest ih =>
    intro ms h
    unfold Pattern.finditerAux at h
    split at h
    · split at h
      case h_1 g hg =>
        split at h
        case h_1 tail htail =>
          cases h
          simp [ih tail htail]
        case h_2 => cases h
      case h_2 => cases h
    · next hcf =>
        rw [hc] at hcf
        exact absurd rfl hcf

/-- C8: the constraint filter inside `Pattern.finditer` depends only on the
whole text, so a normal `finditer` result is either empty or wraps EVERY
non-overlapping primary match in left-to-right order — never a non-empty
proper subset. -/
theorem c8_finditer_all_or_nothing (p : Pattern) (t : Str) (i j k : Bool)
    (ms : List Match) (h : p.finditer t i j k = Except.ok ms) :
    ms = [] ∨ ms.map Match.md = p.pattern.findIter t := by
  unfold Pattern.finditer at h
  cases hc : p.confirm_match t i j k
  · left
    have hall := finditerAux_confirm_false p t i j k hc (p.pattern.findIter t)
    rw [h] at hall
    cases hall
    rfl
  · right
    exact finditerAux_confirm_true p t i j k hc (p.pattern.findIter t) ms h

/-- The match of `(this|that)` on `that` in `I want this, or that.` -/
def mThat : Match :=
  ⟨{ mstart := 16, mend := 20, mtext := "that".data
     groups := [some ("that".data)], gspans := [some (16, 20)] }, Option.none⟩

/-- Witness for C8: `(this|that)` over `I want this, or that.` yields
exactly the two raw matches, in order. -/
theorem c8_witness :
    [mThis, mThat] = ([] : List Match)
    ∨ [mThis, mThat].map Match.md = thisThatPat.pattern.findIter tW :=
  c8_finditer_all_or_nothing thisThatPat tW false false false [mThis, mThat] rfl

/-- C5: a `Sentence` built over the span `[s, s + len(t))` of a document
has, after the constructor's trim, text without leading or trailing
whitespace, a start advanced by the leading whitespace, an end retracted
by the trailing whitespace, and `end - start = len(text)`. -/
theorem c5_trim_invariant (t : Str) (s e : Int) (hs : 0 ≤ s)
    (he : e = s + (t.length : Int)) :
    pyLstrip (Sentence.init t Option.none s (some e)).text
        = (Sentence.init t Option.none s (some e)).text
    ∧ pyRstrip (Sentence.init t Option.none s (some e)).text
        = (Sentence.init t Option.none s (some e)).text
    ∧ (Sentence.init t Option.none s (some e)).start
        = s + ((t.length : Int) - ((pyLstrip t).length : Int))
    ∧ (Sentence.init t Option.none s (some e)).end_
        = e - (((pyLstrip t).length : Int) - ((pyStrip t).length : Int))
    ∧ (Sentence.init t Option.none s (some e)).end_
        - (Sentence.init t Option.none s (some e)).start
        = (((Sentence.init t Option.none s (some e)).text.length : Int)) := by
  have htext : (Sentence.init t Option.none s (some e)).text = pyStrip t := rfl
  have hstart : (Sentence.init t Option.none s (some e)).start
      = s + ((t.length : Int) - ((pyLstrip t).length : Int)) := rfl
  have hend : (Sentence.init t Option.none s (some e)).end_
      = (if e ≠ 0 then e else (t.length : Int))
        - ((t.length : Int) - ((pyStrip t).length : Int)
           - ((t.length : Int) - ((pyLstrip t).length : Int))) := rfl
  have hE : (if e ≠ 0 then e else (t.length : Int)) = e := by
    by_cases h0 : e = 0
    · rw [if_neg (by simp [h0])]
      omega
    · rw [if_pos h0]
  refine ⟨?_, ?_, hstart, ?_, ?_⟩
  · rw [htext]
    exact pyLstrip_pyStrip t
  · rw [htext]
    exact pyRstrip_pyStrip t
  · rw [hend, hE]
    omega
  · rw [hend, hE, hstart, htext]
    omega

/-- Witness for C5 on the concrete span `"  hi \t"` at offsets 3..9. -/
theorem c5_witness :
    pyLstrip (Sentence.init ("  hi \t".data) Option.none 3 (some 9)).text
        = (Sentence.init ("  hi \t".data) Option.none 3 (some 9)).text
    ∧ pyRstrip (Sentence.init ("  hi \t".data) Option.none 3 (some 9)).text
        = (Sentence.init ("  hi \t".data) Option.none 3 (some 9)).text
    ∧ (Sentence.init ("  hi \t".data) Option.none 3 (some 9)).start
        = 3 + ((("  hi \t".data : Str).length : Int)
            - ((pyLstrip ("  hi \t".data)).length : Int))
    ∧ (Sentence.init ("  hi \t".data) Option.none 3 (some 9)).end_
        = 9 - (((pyLstrip ("  hi \t".data)).length : Int)
            - ((pyStrip ("  hi \t".data)).length : Int))
    ∧ (Sentence.init ("  hi \t".data) Option.none 3 (some 9)).end_
        - (Sentence.init ("  hi \t".data) Option.none 3 (some 9)).start
        = (((Sentence.init ("  hi \t".data) Option.none 3 (some 9)).text.length : Int)) :=
  c5_trim_invariant ("  hi \t".data) 3 9 (by decide) (by decide)

/-- C6: `Sentence.get_pattern` with offsets requested returns the matched
text together with the match span shifted by the sentence's absolute
`start` — document-relative offsets; in particular `(this|that)` against a
sentence built from `"\t I want this, or that.\n"` yields
`("this", 9, 13)`. -/
theorem c6_locate_offsets :
    (∀ (snt : Sentence) (pat : Pattern) (m : Match),
        pat.matches snt.text false false false = Except.ok (some m) →
        snt.get_pattern pat 0 true = Except.ok (some (PyVal.vtuple
          [PyVal.vstr m.md.mtext,
           PyVal.vint ((m.md.mstart : Int) + snt.start),
           PyVal.vint ((m.md.mend : Int) + snt.start)])))
    ∧ (Sentence.init tabText Option.none 0 Option.none).get_pattern thisThatPat 0 true
        = Except.ok (some (PyVal.vtuple
            [PyVal.vstr ("this".data), PyVal.vint 9, PyVal.vint 13])) := by
  constructor
  · intro snt pat m h
    have hg : m.group [0] = Except.ok (PyVal.vstr m.md.mtext) := by
      unfold Match.group
      simp [MatchData.rawGroup, MatchData.groupVal]
    have hst : m.startAt 0 = (m.md.mstart : Int) := by
      unfold Match.startAt MatchData.rawStart
      simp
    have hen : m.endAt 0 = (m.md.mend : Int) := by
      unfold Match.endAt MatchData.rawEnd
      simp
    unfold Sentence.get_pattern
    rw [h]
    show (match m.group [0] with
          | Except.ok g =>
            if (true : Bool) = true then
              Except.ok (some (PyVal.vtuple [g,
                PyVal.vint (m.startAt 0 + snt.start),
                PyVal.vint (m.endAt 0 + snt.start)]))
            else Except.ok (some g)
          | Except.error e => Except.error e)
        = Except.ok (some (PyVal.vtuple
            [PyVal.vstr m.md.mtext,
             PyVal.vint ((m.md.mstart : Int) + snt.start),
             PyVal.vint ((m.md.mend : Int) + snt.start)]))
    rw [hg, hst, hen]
    rfl
  · rfl

/-- Witness for C6: the document-relative triple on the concrete test
sentence. -/
theorem c6_witness :
    (Sentence.init tabText Option.none 0 Option.none).get_pattern thisThatPat 0 true
      = Except.ok (some (PyVal.vtuple
          [PyVal.vstr ("this".data), PyVal.vint 9, PyVal.vint 13])) := by
  have h := c6_locate_offsets.1
    (Sentence.init tabText Option.none 0 Option.none) thisThatPat mThis rfl
  exact h

/-- The `.sentences` field of a freshly initialized `Section` is the list
it was given. -/
theorem section_init_sentences (l : List Sentence) (mc : Option MatchCask)
    (am : Bool) : (Section.init l mc am).sentences = l := rfl

/-- C10: every sentence kept by `Sentences.__init__`, and every sentence
of the `Section` built by `Sections.add` (the constructor `Document.split`
uses), has non-blank text: whitespace-only split segments are discarded
before any `Sentence` is constructed. -/
theorem c10_nonblank_sentences (text : Str) (mc : Option MatchCask)
    (ssplit : Str → List (Str × Nat × Nat)) (S : Sections) (name : Str) :
    (∀ snt ∈ (Sentences.init text mc ssplit).sentences, pyStrip snt.text ≠ [])
    ∧ (∀ snt ∈ (Sections.buildSection text ssplit).sentences, pyStrip snt.text ≠ [])
    ∧ (S.add name text ssplit).sections.head?
        = some (pyUpper name, Sections.buildSection text ssplit) := by
  have key : ∀ (mc2 : Option MatchCask) (seg : Str × Nat × Nat),
      (pyStrip seg.1).isEmpty = false →
      pyStrip (Sentence.init seg.1 mc2 (seg.2.1 : Int) (some (seg.2.2 : Int))).text
        ≠ [] := by
    intro mc2 seg hseg
    have htext : (Sentence.init seg.1 mc2 (seg.2.1 : Int)
        (some (seg.2.2 : Int))).text = pyStrip seg.1 := rfl
    rw [htext, pyStrip_idem]
    intro hnil
    rw [hnil] at hseg
    simp at hseg
  refine ⟨?_, ?_, rfl⟩
  · intro snt hmem
    unfold Sentences.init at hmem
    simp only [List.mem_map, List.mem_filter] at hmem
    obtain ⟨seg, ⟨_, hkeep⟩, rfl⟩ := hmem
    exact key mc seg (by simpa using hkeep)
  · intro snt hmem
    unfold Sections.buildSection at hmem
    rw [section_init_sentences] at hmem
    simp only [List.mem_map, List.mem_filter] at hmem
    obtain ⟨seg, ⟨_, hkeep⟩, rfl⟩ := hmem
    exact key Option.none seg (by simpa using hkeep)

/-- Witness for C10: in the split of `"a\n \nb"` the blank middle segment
is discarded and the kept first sentence has non-blank text. -/
theorem c10_witness :
    pyStrip (Sentence.init ("a\n".data) Option.none ((0 : Nat) : Int)
      (some ((2 : Nat) : Int))).text ≠ [] :=
  (c10_nonblank_sentences ("a\n \nb".data) Option.none default_ssplit ⟨[]⟩
      "x".data).1
    (Sentence.init ("a\n".data) Option.none ((0 : Nat) : Int) (some ((2 : Nat) : Int)))
    (by decide)

/-- Membership in the code's neighbor set of a hit at `i`: the hit itself
plus the in-bounds indices at distance STRICTLY below
`neighboring_sentences` (the `range(r)` loop only reaches offsets
`0 .. r-1`). -/
theorem mem_neighborFinset (i n r k : ℕ) (hin : i < n) :
    k ∈ neighborFinset i n r ↔ (k < n ∧ (k = i ∨ Nat.dist k i < r)) := by
  unfold neighborFinset
  simp only [Finset.mem_union, Finset.mem_singleton, Finset.mem_biUnion,
    Finset.mem_range]
  constructor
  · rintro (rfl | ⟨j, hj, hmem⟩)
    · exact ⟨hin, Or.inl rfl⟩
    · rcases hmem with h1 | h2
      · by_cases hc : i + j < n
        · rw [if_pos hc] at h1
          simp only [Finset.mem_singleton] at h1
          subst h1
          refine ⟨hc, ?_⟩
          rcases Nat.eq_zero_or_pos j with rfl | hj0
          · exact Or.inl (by omega)
          · right
            simp only [Nat.dist]
            omega
        · rw [if_neg hc] at h1
          simp at h1
      · by_cases hc : j ≤ i
        · rw [if_pos hc] at h2
          simp only [Finset.mem_singleton] at h2
          subst h2
          refine ⟨by omega, ?_⟩
          rcases Nat.eq_zero_or_pos j with rfl | hj0
          · exact Or.inl (by omega)
          · right
            simp only [Nat.dist]
            omega
        · rw [if_neg hc] at h2
          simp at h2
  · rintro ⟨hkn, rfl | hd⟩
    · exact Or.inl rfl
    · right
      simp only [Nat.dist] at hd
      by_cases hki : i ≤ k
      · refine ⟨k - i, by omega, Or.inl ?_⟩
        rw [if_pos (by omega)]
        simp only [Finset.mem_singleton]
        omega
      · refine ⟨i - k, by omega, Or.inr ?_⟩
        rw [if_pos (by omega)]
        simp only [Finset.mem_singleton]
        omega

/-- The sorted enumeration of the code's neighbor set lists exactly the
in-bounds indices at distance below `r` from the hit (plus the hit),
ascending. -/
theorem sortedIndices_neighborFinset (i n r : ℕ) (hin : i < n) :
    sortedIndices (neighborFinset i n r) n
      = (List.range n).filter (fun k => decide (k = i ∨ Nat.dist k i < r)) := by
  unfold sortedIndices
  refine List.filter_congr ?_
  intro k hk
  rw [List.mem_range] at hk
  rw [decide_eq_decide]
  rw [mem_neighborFinset i n r k hin]
  constructor
  · rintro ⟨_, hx⟩
    exact hx
  · intro hx
    exact ⟨hk, hx⟩

/-- Indices produced by `List.enum` are below the list's length. -/
theorem enum_fst_lt (l : List α) (x : ℕ × α) (h : x ∈ l.enum) :
    x.1 < l.length := by
  have := List.mem_enumFrom h
  omega

/-- The normal result of the negation test is the pure negation
predicate. -/
theorem negCheck_ok (snt : Sentence) (negation : List Pattern) (b : Bool)
    (h : negCheck snt negation = Except.ok b) :
    b = (!negation.isEmpty && snt.hasPatternsB negation false false) := by
  unfold negCheck at h
  by_cases hne : negation.isEmpty
  · rw [if_neg (by simp [hne])] at h
    cases h
    simp [hne]
  · rw [if_pos (by simp [hne])] at h
    have := sentence_has_patterns_ok snt negation false false b h
    rw [this]
    simp [hne]

/-- Characterization of the per-hit selection loop: a normal result emits
one section per qualifying enumerated sentence, in order, each holding the
in-bounds sentences at index distance below `r` from the hit. -/
theorem selectAux_ok (allS : List Sentence) (cask : MatchCask)
    (pats negation : List Pattern) (ha : Bool) (r : Nat) :
    ∀ (l : List (Nat × Sentence)), (∀ x ∈ l, x.1 < allS.length) →
      ∀ secs, selectAux allS cask pats negation ha r l = Except.ok secs →
      secs.map Section.sentences =
        (l.filter (fun x => qualB pats negation ha x.2)).map
          (fun x => ((List.range allS.length).filter
              (fun k => decide (k = x.1 ∨ Nat.dist k x.1 < r))).map
            (fun k => allS.getD k defaultSentence)) := by
  intro l
  induction l with
  | nil =>
    intro _ secs h
    cases h
    rfl
  | cons x rest ih =>
    intro hbound secs h
    obtain ⟨i, snt⟩ := x
    have hrest : ∀ y ∈ rest, y.1 < allS.length :=
      fun y hy => hbound y (List.mem_cons_of_mem _ hy)
    have hhead : i < allS.length := hbound (i, snt) (List.mem_cons_self _ _)
    unfold selectAux at h
    split at h
    case h_1 => cases h
    case h_2 hit hhit =>
      have hhitb : hit = snt.hasPatternsB pats ha false :=
        sentence_has_patterns_ok snt pats ha false hit hhit
      cases hq : snt.hasPatternsB pats ha false with
      | false =>
        rw [hhitb, hq] at h
        rw [if_neg (by simp)] at h
        have htail := ih hrest secs h
        rw [htail]
        have hfq : qualB pats negation ha snt = false := by
          unfold qualB
          rw [hq]
          rfl
        rw [List.filter_cons_of_neg (by simp [hfq])]
      | true =>
        rw [hhitb, hq] at h
        rw [if_pos rfl] at h
        split at h
        case h_1 => cases h
        case h_2 neg hneg =>
          have hnegb : neg = (!negation.isEmpty
              && snt.hasPatternsB negation false false) :=
            negCheck_ok snt negation neg hneg
          cases hq2 : (!negation.isEmpty && snt.hasPatternsB negation false false) with
          | true =>
            rw [hnegb, hq2] at h
            rw [if_pos rfl] at h
            have htail := ih hrest secs h
            rw [htail]
            have hfq : qualB pats negation ha snt = false := by
              unfold qualB
              rw [hq, hq2]
              rfl
            rw [List.filter_cons_of_neg (by simp [hfq])]
          | false =>
            rw [hnegb, hq2] at h
            rw [if_neg (by simp)] at h
            split at h
            case h_1 => cases h
            case h_2 tail htail =>
              cases h
              have hih := ih hrest tail htail
              have hfq : qualB pats negation ha snt = true := by
                unfold qualB
                rw [hq, hq2]
                rfl
              rw [List.filter_cons_of_pos (by simp [hfq])]
              simp only [List.map_cons]
              rw [← hih]
              congr 1
              rw [section_init_sentences, sortedIndices_neighborFinset i allS.length r hhead]

/-- Characterization of the select-all accumulation loop: a normal result
is the starting set united with, for every qualifying enumerated sentence,
its neighbor set. -/
theorem collectAux_ok (pats negation : List Pattern) (ha : Bool) (r n : Nat) :
    ∀ (l : List (Nat × Sentence)) (acc S : Finset ℕ),
      (∀ x ∈ l, x.1 < n) →
      collectAux pats negation ha r n l acc = Except.ok S →
      ∀ k, k ∈ S ↔ (k ∈ acc
        ∨ ∃ x ∈ l.filter (fun x => qualB pats negation ha x.2),
            k < n ∧ (k = x.1 ∨ Nat.dist k x.1 < r)) := by
  intro l
  induction l with
  | nil =>
    intro acc S _ h k
    cases h
    simp
  | cons x rest ih =>
    intro acc S hbound h k
    obtain ⟨i, snt⟩ := x
    have hrest : ∀ y ∈ rest, y.1 < n :=
      fun y hy => hbound y (List.mem_cons_of_mem _ hy)
    have hhead : i < n := hbound (i, snt) (List.mem_cons_self _ _)
    unfold collectAux at h
    split at h
    case h_1 => cases h
    case h_2 hit hhit =>
      have hhitb : hit = snt.hasPatternsB pats ha false :=
        sentence_has_patterns_ok snt pats ha false hit hhit
      cases hq : snt.hasPatternsB pats ha false with
      | false =>
        rw [hhitb, hq] at h
        rw [if_neg (by simp)] at h
        have hih := ih acc S hrest h k
        have hfq : qualB pats negation ha snt = false := by
          unfold qualB
          rw [hq]
          rfl
        rw [List.filter_cons_of_neg (by simp [hfq])]
        exact hih
      | true =>
        rw [hhitb, hq] at h
        rw [if_pos rfl] at h
        split at h
        case h_1 => cases h
        case h_2 neg hneg =>
          have hnegb : neg = (!negation.isEmpty
              && snt.hasPatternsB negation false false) :=
            negCheck_ok snt negation neg hneg
          cases hq2 : (!negation.isEmpty && snt.hasPatternsB negation false false) with
          | true =>
            rw [hnegb, hq2] at h
            rw [if_pos rfl] at h
            have hih := ih acc S hrest h k
            have hfq : qualB pats negation ha snt = false := by
              unfold qualB
              rw [hq, hq2]
              rfl
            rw [List.filter_cons_of_neg (by simp [hfq])]
            exact hih
          | false =>
            rw [hnegb, hq2] at h
            rw [if_neg (by simp)] at h
            have hih := ih (acc ∪ neighborFinset i n r) S hrest h k
            have hfq : qualB pats negation ha snt = true := by
              unfold qualB
              rw [hq, hq2]
              rfl
            rw [List.filter_cons_of_pos (by simp [hfq])]
            rw [hih]
            rw [Finset.mem_union, mem_neighborFinset i n r k hhead]
            simp only [List.mem_cons]
            constructor
            · rintro ((hacc | hnb) | ⟨y, hy, hP⟩)
              · exact Or.inl hacc
              · exact Or.inr ⟨(i, snt), Or.inl rfl, hnb⟩
              · exact Or.inr ⟨y, Or.inr hy, hP⟩
            · rintro (hacc | ⟨y, (rfl | hy), hP⟩)
              · exact Or.inl (Or.inl hacc)
              · exact Or.inl (Or.inr hP)
              · exact Or.inr ⟨y, hy, hP⟩

/-- C2 (amended): a normal run of the per-hit selection emits one Section
per sentence index that satisfies the pattern predicate and no negation
predicate; that Section contains the hit index plus the in-bounds indices
at distance STRICTLY LESS than `neighboring_sentences` (i.e. up to
`neighboring_sentences - 1` neighbors on each side, clamped to bounds —
not `neighboring_sentences` as the claim states: the `range(r)` loop only
adds offsets `0 .. r-1`).  The same off-by-one neighborhood rule governs
the index set collected by the select-all variant. -/
theorem c2_amended_selection (doc : Document) (pats negation : List Pattern)
    (ha : Bool) (r : Nat) :
    (∀ secs, doc.select_sentences_with_patterns pats negation ha r = Except.ok secs →
      secs.map Section.sentences =
        ((doc.sentences.sentences.enum.filter
            (fun x => qualB pats negation ha x.2)).map
          (fun x => ((List.range doc.sentences.sentences.length).filter
              (fun k => decide (k = x.1 ∨ Nat.dist k x.1 < r))).map
            (fun k => doc.sentences.sentences.getD k defaultSentence))))
    ∧ (∀ S, doc.collect_selected pats negation ha r = Except.ok S →
        ∀ k, k ∈ S ↔ ∃ x ∈ doc.sentences.sentences.enum.filter
            (fun x => qualB pats negation ha x.2),
          k < doc.sentences.sentences.length ∧ (k = x.1 ∨ Nat.dist k x.1 < r)) := by
  constructor
  · intro secs h
    exact selectAux_ok doc.sentences.sentences doc.matches_ pats negation ha r
      doc.sentences.sentences.enum
      (fun x hx => enum_fst_lt doc.sentences.sentences x hx) secs h
  · intro S h k
    have hc := collectAux_ok pats negation ha r doc.sentences.sentences.length
      doc.sentences.sentences.enum ∅ S
      (fun x hx => enum_fst_lt doc.sentences.sentences x hx) h k
    simpa using hc

/-- The first sentence of the three-sentence test document. -/
def s3a : Sentence := { text := "alpha".data, matches_ := ⟨[]⟩, start := 0, end_ := 5 }

/-- The middle (hit) sentence of the three-sentence test document. -/
def s3b : Sentence := { text := "beta one".data, matches_ := ⟨[]⟩, start := 6, end_ := 14 }

/-- The last sentence of the three-sentence test document. -/
def s3c : Sentence := { text := "gamma".data, matches_ := ⟨[]⟩, start := 15, end_ := 20 }

/-- Counterexample to C2 as stated: in a three-sentence document whose
middle sentence alone matches, `neighboring_sentences=1` emits a Section
holding ONLY the hit sentence, while the claim's neighborhood rule
("up to r neighboring indices on each side, clamped") prescribes all
three sentences (indices 0,1,2 are all within distance 1 of the hit and
in bounds). -/
theorem c2_counterexample :
    doc3.select_sentences_with_patterns [onePat] [] false 1
      = Except.ok [Section.init [s3b] (some doc3.matches_) false]
    ∧ (Section.init [s3b] (some doc3.matches_) false).sentences = [s3b]
    ∧ claimNeighborhood 1 3 1 = [0, 1, 2]
    ∧ (claimNeighborhood 1 3 1).map
        (fun k => doc3.sentences.sentences.getD k defaultSentence) = [s3a, s3b, s3c]
    ∧ [s3b] ≠ [s3a, s3b, s3c] := by
  refine ⟨rfl, rfl, rfl, rfl, by decide⟩

/-- Witness for C2 (amended): the characterization applied to the
concrete three-sentence document with `neighboring_sentences=1`. -/
theorem c2_witness :
    [Section.init [s3b] (some doc3.matches_) false].map Section.sentences
      = ((doc3.sentences.sentences.enum.filter
            (fun x => qualB [onePat] [] false x.2)).map
          (fun x => ((List.range doc3.sentences.sentences.length).filter
              (fun k => decide (k = x.1 ∨ Nat.dist k x.1 < 1))).map
            (fun k => doc3.sentences.sentences.getD k defaultSentence))) :=
  (c2_amended_selection doc3 [onePat] [] false 1).1
    [Section.init [s3b] (some doc3.matches_) false] rfl
